import Mathlib

/-!
Verification of the metadata cache and file-organization engine of the
Editor-Workshop repository (Rust sources under `src/src-tauri/src/smelter/`).

The Rust code is shallowly embedded: pure string manipulation becomes Lean
functions over `String`/`List Char`, the SQLite cache becomes an association
list of rows together with an explicit live-stat argument, and the filesystem
becomes an explicit `FS` state (existing files, existing directories, and an
oracle of directory paths whose creation fails / source paths whose rename
fails) threaded through the operations.  Rust's `str::trim` is embedded as an
explicit character-list function, and `u32` display formatting as `Nat.repr`.
-/

namespace Smelter

/-! ### Basic string helpers shared by the embedding -/

/-- Whitespace test matching the characters relevant to `str::trim`
(space, tab, line feed, carriage return). -/
def isWs (c : Char) : Bool :=
  c = ' ' ∨ c = '\t' ∨ c = '\n' ∨ c = '\r'

/-- Embedding of Rust `str::trim` on a character list: drop whitespace from
both ends. -/
def trimList (l : List Char) : List Char :=
  ((l.dropWhile isWs).reverse.dropWhile isWs).reverse

/-- Embedding of Rust `str::trim` on strings. -/
def strTrim (s : String) : String :=
  ⟨trimList s.data⟩

/-- Embedding of `Path::join` for the path shapes the engine builds
(a folder joined with a forward component). -/
def pjoin (folder name : String) : String :=
  folder ++ "/" ++ name

/-- Embedding of Rust `str::starts_with` with a literal pattern. -/
def starts_with (s pat : String) : Bool :=
  pat.data.isPrefixOf s.data

/-- Embedding of Rust `str::split` with a one-character separator, on
character lists: splitting the empty input yields one empty piece, exactly as
`"".split(sep)` yields one empty item. -/
def splitChar (sep : Char) : List Char → List (List Char)
  | [] => [[]]
  | c :: cs =>
    let rest := splitChar sep cs
    if c = sep then [] :: rest
    else
      match rest with
      | [] => [[c]]
      | piece :: pieces => (c :: piece) :: pieces

/-- Path components of a `/`-separated path, with empty components dropped the
way `Path::components` drops them. -/
def pathComponents (path : String) : List String :=
  ((splitChar '/' path.data).map (fun l => (⟨l⟩ : String))).filter (fun c => c ≠ "")

/-- Split a character list at its last dot: returns the part before the last
dot and the part after it, or `none` when no dot occurs. -/
def lastDotSplit : List Char → Option (List Char × List Char)
  | [] => none
  | c :: cs =>
    match lastDotSplit cs with
    | some (s, e) => some (c :: s, e)
    | none => if c = '.' then some ([], cs) else none

/-- Embedding of Rust `Path::file_stem` / `Path::extension` on a bare file
name: the stem is everything before the last dot and the extension everything
after it, except that a dot in the first position (hidden files) does not
count as a separator.  A name without a separating dot has extension `""`,
matching the `unwrap_or("")` in the source. -/
def file_stem_ext (name : String) : String × String :=
  match name.data with
  | [] => (name, "")
  | c0 :: rest =>
    match lastDotSplit rest with
    | some (s, e) => (⟨c0 :: s⟩, ⟨e⟩)
    | none => (name, "")

/-- Embedding of the numbered-variant formatting in `generate_unique_filename`:
`format!("{}_{}", stem, c)` when the extension is empty and
`format!("{}_{}.{}", stem, c, ext)` otherwise. -/
def suffixName (stem ext : String) (c : Nat) : String :=
  if ext = "" then stem ++ "_" ++ Nat.repr c
  else stem ++ "_" ++ Nat.repr c ++ "." ++ ext

/-- Embedding of `Path::new(path).parent().and_then(file_name)` with the
`unwrap_or("Unknown")` of the source: the last component of the path with its
final component removed, over `/`-separated paths with empty components
ignored. -/
def parent_folder_name (path : String) : String :=
  match (pathComponents path).dropLast.getLast? with
  | some f => f
  | none => "Unknown"

/-- Embedding of `Path::new(path).file_name()` with the `unwrap_or("Unknown")`
used by the cache when rebuilding the `filename` field from the stored path. -/
def file_name_of (path : String) : String :=
  match (pathComponents path).getLast? with
  | some f => if f = "." ∨ f = ".." then "Unknown" else f
  | none => "Unknown"

/-! ### Decimal representation: `Nat.repr` is injective

The name resolver appends decimal counters to file stems, so distinctness of
generated names reduces to injectivity of decimal formatting.  We relate the
fuelled core implementation `Nat.toDigitsCore` to a structural digit function
and prove the latter injective.
-/

/-- Structural decimal digit-list function: little fuel, big steps. -/
def digitsSpec (n : Nat) : List Char :=
  if h : n < 10 then [Nat.digitChar n]
  else digitsSpec (n / 10) ++ [Nat.digitChar (n % 10)]
termination_by n
decreasing_by exact Nat.div_lt_self (by omega) (by omega)

theorem digitsSpec_lt (n : Nat) (h : n < 10) : digitsSpec n = [Nat.digitChar n] := by
  rw [digitsSpec]
  simp [h]

theorem digitsSpec_ge (n : Nat) (h : ¬ n < 10) :
    digitsSpec n = digitsSpec (n / 10) ++ [Nat.digitChar (n % 10)] := by
  rw [digitsSpec]
  simp [h]

theorem digitsSpec_ne_nil (n : Nat) : digitsSpec n ≠ [] := by
  by_cases h : n < 10
  · rw [digitsSpec_lt n h]; simp
  · rw [digitsSpec_ge n h]; simp

theorem toDigitsCore_eq_digitsSpec (fuel n : Nat) (acc : List Char) (h : n < fuel) :
    Nat.toDigitsCore 10 fuel n acc = digitsSpec n ++ acc := by
  induction fuel generalizing n acc with
  | zero => omega
  | succ fuel ih =>
    by_cases hz : n / 10 = 0
    · have hn : n < 10 := by omega
      have hm : n % 10 = n := Nat.mod_eq_of_lt hn
      simp [Nat.toDigitsCore, hz, digitsSpec, hn, hm]
    · have hge : 10 ≤ n := by
        by_contra hlt
        exact hz (Nat.div_eq_of_lt (by omega))
      have hlt : n / 10 < fuel := by
        have := Nat.div_lt_self (by omega : 0 < n) (by omega : 1 < 10)
        omega
      have hns : ¬ n < 10 := by omega
      rw [show Nat.toDigitsCore 10 (fuel + 1) n acc
            = Nat.toDigitsCore 10 fuel (n / 10) ((n % 10).digitChar :: acc) by
          simp [Nat.toDigitsCore, hz]]
      rw [ih (n / 10) ((n % 10).digitChar :: acc) hlt]
      conv_rhs => rw [digitsSpec]
      simp [hns]

theorem repr_eq_digitsSpec (n : Nat) : Nat.repr n = List.asString (digitsSpec n) := by
  show (Nat.toDigits 10 n).asString = List.asString (digitsSpec n)
  unfold Nat.toDigits
  rw [toDigitsCore_eq_digitsSpec (n + 1) n [] (by omega)]
  simp

theorem digitChar_inj_lt (a b : Nat) (ha : a < 10) (hb : b < 10)
    (h : Nat.digitChar a = Nat.digitChar b) : a = b := by
  have key : ∀ (x y : Fin 10), Nat.digitChar x = Nat.digitChar y → (x : Nat) = y := by decide
  exact key ⟨a, ha⟩ ⟨b, hb⟩ h

theorem digitsSpec_inj (a : Nat) : ∀ b : Nat, digitsSpec a = digitsSpec b → a = b := by
  induction a using Nat.strong_induction_on with
  | _ a ih =>
    intro b h
    by_cases ha : a < 10
    · by_cases hb : b < 10
      · rw [digitsSpec_lt a ha, digitsSpec_lt b hb] at h
        simp at h
        exact digitChar_inj_lt a b ha hb h
      · rw [digitsSpec_lt a ha, digitsSpec_ge b hb] at h
        have hlen := congrArg List.length h
        simp [List.length_eq_zero] at hlen
        exact absurd hlen (digitsSpec_ne_nil (b / 10))
    · by_cases hb : b < 10
      · rw [digitsSpec_ge a ha, digitsSpec_lt b hb] at h
        have hlen := congrArg List.length h
        simp [List.length_eq_zero] at hlen
        exact absurd hlen (digitsSpec_ne_nil (a / 10))
      · rw [digitsSpec_ge a ha, digitsSpec_ge b hb] at h
        have hrev := congrArg List.reverse h
        simp at hrev
        obtain ⟨hchar, htails⟩ := hrev
        have hdiv : a / 10 = b / 10 :=
          ih (a / 10) (Nat.div_lt_self (by omega) (by omega)) (b / 10) htails
        have hmod : a % 10 = b % 10 :=
          digitChar_inj_lt _ _ (Nat.mod_lt _ (by omega)) (Nat.mod_lt _ (by omega)) hchar
        omega

theorem natRepr_inj {a b : Nat} (h : Nat.repr a = Nat.repr b) : a = b := by
  rw [repr_eq_digitsSpec, repr_eq_digitsSpec] at h
  have : digitsSpec a = digitsSpec b := by
    have := congrArg String.data h
    simpa [List.asString] using this
  exact digitsSpec_inj a b this

/-! ### Data model (`smelter/mod.rs`) -/

/-- Embedding of `AudioMetadata` from `smelter/mod.rs`. -/
structure AudioMetadata where
  path : String
  filename : String
  title : Option String
  artist : Option String
  genre : Option String
  mood : Option String
  energy : Option String
  bpm : Option Nat
  duration_secs : Option Float
  category_override : Option String

/-- Embedding of `OrganizeResult` from `smelter/mod.rs`. -/
structure OrganizeResult where
  success_count : Nat
  error_count : Nat
  skipped_count : Nat
  errors : List String
deriving DecidableEq

/-- Embedding of `DuplicateInfo` from `smelter/mod.rs`. -/
structure DuplicateInfo where
  source_path : String
  source_filename : String
  existing_path : String
  category : String
deriving DecidableEq

/-- Embedding of `SourceDuplicateFile` from `smelter/mod.rs` (a member of a
source-duplicate group: the file path plus its immediate parent folder name). -/
structure SourceDuplicateFile where
  path : String
  folder : String
deriving DecidableEq

/-- Embedding of `SourceDuplicateGroup` from `smelter/mod.rs`. -/
structure SourceDuplicateGroup where
  filename : String
  category : String
  files : List SourceDuplicateFile
deriving DecidableEq

/-! ### Categorizer (`smelter/organize.rs`) -/

/-- Embedding of `is_sfx_file`: a file is SFX when its name does not start
with the case-sensitive catalog literal `ES_`. -/
def is_sfx_file (filename : String) : Bool :=
  ! starts_with filename "ES_"

/-- Embedding of `get_file_category`: SFX files unconditionally map to the
`SFX` bucket; otherwise the caller-supplied override wins, then the mode picks
the genre field or the trimmed first comma-separated token of the mood field,
and an unresolved value falls back to `Unknown`. -/
def get_file_category (file : AudioMetadata) (organize_by : String) : String :=
  if is_sfx_file file.filename then "SFX"
  else
    let category : Option String :=
      match file.category_override with
      | some override_cat => some override_cat
      | none =>
        match organize_by with
        | "genre" => file.genre
        | "mood" =>
          file.mood.map (fun m => strTrim ⟨(splitChar ',' m.data).headD "Unknown".data⟩)
        | _ => none
    category.getD "Unknown"

/-- Reserved filesystem characters of `sanitize_folder_name`. -/
def isReserved (c : Char) : Bool :=
  c = '/' ∨ c = '\\' ∨ c = ':' ∨ c = '*' ∨ c = '?' ∨ c = '"' ∨ c = '<' ∨ c = '>' ∨ c = '|'

/-- Character replacement of `sanitize_folder_name`: the reserved filesystem
characters become underscores. -/
def replaceReserved (c : Char) : Char :=
  if isReserved c then '_' else c

/-- Embedding of `sanitize_folder_name`: map the reserved characters to
underscores, then trim surrounding whitespace. -/
def sanitize_folder_name (name : String) : String :=
  strTrim ⟨name.data.map replaceReserved⟩

/-! ### Metadata cache (`smelter/cache.rs`)

The SQLite table `audio_metadata` is embedded as a list of rows unique by
`file_path`, and the live filesystem stat as an `Option (Int × Int)` argument
(`none` models a failed `fs::metadata` call; `some (m, s)` a successful stat
with modification time `m` and size `s`).  The source derives the live
identity with `unwrap_or(0)` on every failure path, which the embedding
mirrors in `liveModified` / `liveSize`.
-/

/-- Embedding of one row of the `audio_metadata` table. -/
structure CacheRow where
  file_path : String
  file_modified : Int
  file_size : Int
  title : Option String
  artist : Option String
  genre : Option String
  mood : Option String
  energy : Option String
  bpm : Option Int
  duration_secs : Option Float

/-- Live modification time as `get_cached_metadata` computes it: the stat
result with every failure defaulted to `0`. -/
def liveModified (stat : Option (Int × Int)) : Int :=
  (stat.map Prod.fst).getD 0

/-- Live file size as `get_cached_metadata` computes it: the stat result with
every failure defaulted to `0`. -/
def liveSize (stat : Option (Int × Int)) : Int :=
  (stat.map Prod.snd).getD 0

/-- Embedding of `get_cached_metadata`: stat the file (failures default the
identity fields to `0`), look the path up in the table, and return the row
only when both stored identity fields equal the live ones; a missing or
mismatching row is `Ok(None)`, never an error. -/
def get_cached_metadata (stat : Option (Int × Int)) (db : List CacheRow)
    (file_path : String) : Except String (Option AudioMetadata) :=
  let file_modified := liveModified stat
  let file_size := liveSize stat
  match db.find? (fun row => row.file_path = file_path) with
  | none => .ok none
  | some row =>
    if row.file_modified ≠ file_modified ∨ row.file_size ≠ file_size then .ok none
    else
      .ok (some
        { path := row.file_path
          filename := file_name_of row.file_path
          title := row.title
          artist := row.artist
          genre := row.genre
          mood := row.mood
          energy := row.energy
          bpm := row.bpm.map (fun v => (v % 4294967296).toNat)
          duration_secs := row.duration_secs
          category_override := none })

/-- Embedding of `cache_metadata`: compute the live identity of the file with
the same `unwrap_or(0)` defaults, then insert-or-replace the row keyed by the
path. -/
def cache_metadata (stat : Option (Int × Int)) (db : List CacheRow)
    (metadata : AudioMetadata) : List CacheRow :=
  let row : CacheRow :=
    { file_path := metadata.path
      file_modified := liveModified stat
      file_size := liveSize stat
      title := metadata.title
      artist := metadata.artist
      genre := metadata.genre
      mood := metadata.mood
      energy := metadata.energy
      bpm := metadata.bpm.map (fun v =>
        let w : Int := (v : Int) % 4294967296
        if w < 2147483648 then w else w - 4294967296)
      duration_secs := metadata.duration_secs }
  row :: db.filter (fun r => r.file_path ≠ metadata.path)

/-! ### Filesystem model

The engine's filesystem effects are embedded as an explicit state: the set of
existing file paths, the set of existing directories, and two failure oracles
(directory paths whose `create_dir_all` fails, and source paths for which
`fs::rename` fails, e.g. cross-device moves).  Fallible operations return
`Except String FS`, the string standing for the raw `io::Error` text.
-/

/-- Filesystem state plus failure oracles. -/
structure FS where
  files : List String
  dirs : List String
  failDirs : List String
  renameFails : List String
deriving DecidableEq

/-- Embedding of `Path::exists`: true for existing files and directories. -/
def FS.exists (fs : FS) (p : String) : Bool :=
  p ∈ fs.files ∨ p ∈ fs.dirs

/-- Add a path to a path set unless it is already present. -/
def insertPath (p : String) (l : List String) : List String :=
  if p ∈ l then l else p :: l

/-- Embedding of `fs::create_dir_all`: fails exactly on the oracle paths,
otherwise records the directory (idempotently for existing ones). -/
def FS.create_dir_all (fs : FS) (p : String) : Except String FS :=
  if p ∈ fs.failDirs then .error "io error"
  else .ok { fs with dirs := insertPath p fs.dirs }

/-- Embedding of `fs::copy`: fails when the source file does not exist,
otherwise makes the destination path exist (overwriting silently). -/
def FS.copy (fs : FS) (src dst : String) : Except String FS :=
  if src ∈ fs.files then .ok { fs with files := insertPath dst fs.files }
  else .error "io error"

/-- Embedding of `fs::remove_file`: fails when the file does not exist. -/
def FS.remove_file (fs : FS) (p : String) : Except String FS :=
  if p ∈ fs.files then .ok { fs with files := fs.files.filter (fun q => q ≠ p) }
  else .error "io error"

/-- Embedding of `fs::rename`: fails when the source does not exist or when
the rename oracle says so (cross-device move), otherwise atomically moves the
path. -/
def FS.rename (fs : FS) (src dst : String) : Except String FS :=
  if src ∈ fs.files ∧ src ∉ fs.renameFails then
    .ok { fs with files := insertPath dst (fs.files.filter (fun q => q ≠ src)) }
  else .error "io error"

/-- Embedding of the move operation of `organize_files`: try `fs::rename`,
and on failure fall back to `fs::copy` followed by `fs::remove_file` on the
source, propagating the first error of the fallback chain. -/
def FS.move (fs : FS) (src dst : String) : Except String FS :=
  match fs.rename src dst with
  | .ok fsOut => .ok fsOut
  | .error _ =>
    match fs.copy src dst with
    | .error e => .error e
    | .ok fsCopied => fsCopied.remove_file src

/-! ### Name resolver (`generate_unique_filename` in `smelter/organize.rs`)

The per-batch `HashMap<String, HashMap<String, u32>>` is embedded as nested
association lists.  The unbounded probe loop of the source is embedded with
explicit fuel; one more unit of fuel than there are filesystem entries is
provably enough (`probe_loop_adequate` below), so the fuelled function agrees
with the source loop everywhere.
-/

/-- Per-category map from original filename to last used suffix counter. -/
def CatNames := List (String × Nat)

/-- Batch-wide map from category to its per-category name map. -/
def UsedNames := List (String × CatNames)

/-- Association-list lookup. -/
def alookup {β : Type} (m : List (String × β)) (k : String) : Option β :=
  (m.find? (fun p => p.1 = k)).map (fun p => p.2)

/-- Association-list insert-or-replace. -/
def ainsert {β : Type} (m : List (String × β)) (k : String) (v : β) :
    List (String × β) :=
  (k, v) :: m.filter (fun p => p.1 ≠ k)

/-- Counter lookup for one `(category, original filename)` key. -/
def usedLookup (used : UsedNames) (category original : String) : Option Nat :=
  (alookup used category).bind (fun m => alookup m original)

/-- Record a counter for one `(category, original filename)` key. -/
def usedInsert (used : UsedNames) (category original : String) (c : Nat) : UsedNames :=
  ainsert used category (ainsert ((alookup used category).getD []) original c)

/-- Embedding of the on-disk probe loop of `generate_unique_filename`: try
suffix counters upward until a name that does not exist on disk is found.
The source loop carries no fuel; the fuel here is an upper bound on the
number of iterations, and `none` (fuel exhausted) is provably unreachable
for fuel exceeding the number of filesystem entries. -/
def probe_loop (fs : FS) (folder stem ext : String) :
    Nat → Nat → Option (String × Nat)
  | _, 0 => none
  | counter, fuel + 1 =>
    let new_name := suffixName stem ext counter
    if fs.exists (pjoin folder new_name) then probe_loop fs folder stem ext (counter + 1) fuel
    else some (new_name, counter)

/-- Fuel that provably suffices for `probe_loop`. -/
def probeFuel (fs : FS) : Nat :=
  fs.files.length + fs.dirs.length + 1

/-- Embedding of `generate_unique_filename`.  A key already used in this batch
gets the next counter without consulting the disk; a fresh key returns the
original name when it is free on disk and otherwise probes `_1, _2, …`
until a free name is found, recording the chosen counter.  The `none` arm of
the probe is dead code (see `probe_loop_adequate`). -/
def generate_unique_filename (fs : FS) (folder original_name : String)
    (used_names : UsedNames) (category : String) : String × UsedNames :=
  match usedLookup used_names category original_name with
  | some count =>
    let se := file_stem_ext original_name
    let new_name := suffixName se.1 se.2 (count + 1)
    (new_name, usedInsert used_names category original_name (count + 1))
  | none =>
    if fs.exists (pjoin folder original_name) then
      let se := file_stem_ext original_name
      match probe_loop fs folder se.1 se.2 1 (probeFuel fs) with
      | some nc => (nc.1, usedInsert used_names category original_name nc.2)
      | none => (original_name, used_names)
    else
      (original_name, usedInsert used_names category original_name 0)

/-- Canonical shape of every name the resolver returns for an original
filename: counter `0` is the name unchanged, a positive counter the numbered
variant with the suffix before the extension. -/
def nameAt (original : String) (k : Nat) : String :=
  if k = 0 then original
  else suffixName (file_stem_ext original).1 (file_stem_ext original).2 k

/-- One resolver request within a batch: the filesystem snapshot at call time
(the engine interleaves writes between calls, so each call may see a
different disk), the desired original filename, and the sanitized category. -/
structure ResolveReq where
  fs : FS
  original : String
  category : String

/-- Run a sequence of resolver calls the way one organize batch does,
threading the allocation map and joining the per-category folder exactly as
`organize_files` does; returns the `(category, original, resolved name)`
triple of every call in order. -/
def runResolver (output_folder : String) :
    UsedNames → List ResolveReq → List (String × String × String)
  | _, [] => []
  | used, r :: rest =>
    let g := generate_unique_filename r.fs (pjoin output_folder r.category)
      r.original used r.category
    (r.category, r.original, g.1) :: runResolver output_folder g.2 rest

/-! ### Organize engine (`organize_files` and friends in `smelter/organize.rs`) -/

/-- Embedding of `format_fs_error`, with the `io::Error` kind dispatch
abstracted into the generic arm: the message carries the attempted operation
verb, the offending path, and the raw error text. -/
def format_fs_error (e path operation : String) : String :=
  "Failed to " ++ operation ++ " " ++ path ++ ": " ++ e

/-- One iteration of the `organize_files` loop for a single file: derive and
sanitize the category, create the category folder (a failure is this file's
error), resolve a unique name, then perform the requested operation.  Returns
the error message for a failed file (`none` on success) together with the
updated filesystem and name-allocation state. -/
def organize_step (output_folder organize_by operation : String) (fs : FS)
    (used : UsedNames) (file : AudioMetadata) : Option String × FS × UsedNames :=
  let category := get_file_category file organize_by
  let safe_category := sanitize_folder_name category
  let category_path := pjoin output_folder safe_category
  match fs.create_dir_all category_path with
  | .error e => (some (format_fs_error e safe_category "create folder"), fs, used)
  | .ok fsDir =>
    let r := generate_unique_filename fsDir category_path file.filename used safe_category
    let dest_path := pjoin category_path r.1
    if operation = "move" then
      match fsDir.move file.path dest_path with
      | .ok fsOp => (none, fsOp, r.2)
      | .error e => (some (format_fs_error e file.filename operation), fsDir, r.2)
    else if operation = "copy" then
      match fsDir.copy file.path dest_path with
      | .ok fsOp => (none, fsOp, r.2)
      | .error e => (some (format_fs_error e file.filename operation), fsDir, r.2)
    else
      (some ("Unknown operation: " ++ operation), fsDir, r.2)

/-- The `organize_files` loop over the batch: every file is processed in input
order, successes increment `success_count`, failures increment `error_count`
and append one message, and the loop never aborts. -/
def organizeLoop (output_folder organize_by operation : String) :
    FS → UsedNames → OrganizeResult → List AudioMetadata → OrganizeResult × FS
  | fs, _, acc, [] => (acc, fs)
  | fs, used, acc, file :: rest =>
    match organize_step output_folder organize_by operation fs used file with
    | (none, fsNext, usedNext) =>
      organizeLoop output_folder organize_by operation fsNext usedNext
        { acc with success_count := acc.success_count + 1 } rest
    | (some msg, fsNext, usedNext) =>
      organizeLoop output_folder organize_by operation fsNext usedNext
        { acc with
          error_count := acc.error_count + 1
          errors := acc.errors ++ [msg] } rest

/-- Embedding of `organize_files`: create the output root (the only
call-fatal failure), then run the batch loop starting from zeroed counters
and an empty per-batch name map. -/
def organize_files (fs : FS) (files : List AudioMetadata)
    (output_folder organize_by operation : String) :
    Except String (OrganizeResult × FS) :=
  match fs.create_dir_all output_folder with
  | .error e => .error (format_fs_error e output_folder "create output folder")
  | .ok fsRoot =>
    .ok (organizeLoop output_folder organize_by operation fsRoot []
      ⟨0, 0, 0, []⟩ files)

/-- Embedding of `preview_organization`: group the batch by sanitized
category, appending each filename to its category's list in input order. -/
def preview_organization (files : List AudioMetadata) (organize_by : String) :
    List (String × List String) :=
  files.foldl
    (fun preview file =>
      let category := get_file_category file organize_by
      let safe_category := sanitize_folder_name category
      match alookup preview safe_category with
      | some l => ainsert preview safe_category (l ++ [file.filename])
      | none => preview ++ [(safe_category, [file.filename])])
    []

/-- Grouping key of `find_source_duplicates`: original filename paired with
the sanitized category. -/
def fileKey (organize_by : String) (file : AudioMetadata) : String × String :=
  (file.filename, sanitize_folder_name (get_file_category file organize_by))

/-- Group member record built by `find_source_duplicates` for one input. -/
def fileEntry (file : AudioMetadata) : SourceDuplicateFile :=
  { path := file.path, folder := parent_folder_name file.path }

/-- Append an entry to the groups map of `find_source_duplicates`: extend the
existing group for the key, or open a new group. -/
def addToGroups :
    List ((String × String) × List SourceDuplicateFile) →
    (String × String) → SourceDuplicateFile →
    List ((String × String) × List SourceDuplicateFile)
  | [], key, e => [(key, [e])]
  | g :: gs, key, e =>
    if g.1 = key then (g.1, g.2 ++ [e]) :: gs
    else g :: addToGroups gs key e

/-- Entries recorded in a groups map for one key (empty when the key is
absent); the specification-side view of the grouping state of
`find_source_duplicates`. -/
def entriesFor (gs : List ((String × String) × List SourceDuplicateFile))
    (key : String × String) : List SourceDuplicateFile :=
  ((gs.find? (fun g => g.1 = key)).map (fun g => g.2)).getD []

/-- Embedding of `find_source_duplicates`: group the inputs by
`(filename, sanitized category)`, annotate each member with its parent folder
name, and report only the groups with two or more members.  The function
consults no filesystem state. -/
def find_source_duplicates (files : List AudioMetadata) (organize_by : String) :
    List SourceDuplicateGroup :=
  let groups := files.foldl
    (fun gs file => addToGroups gs (fileKey organize_by file) (fileEntry file)) []
  (groups.filter (fun g => 1 < g.2.length)).map
    (fun g => { filename := g.1.1, category := g.1.2, files := g.2 })

/-! ## Auxiliary lemmas -/

theorem head_dropWhile_not {α : Type} (p : α → Bool) :
    ∀ (l : List α) (a : α), (l.dropWhile p).head? = some a → p a = false := by
  intro l
  induction l with
  | nil => intro a h; simp [List.dropWhile] at h
  | cons x xs ih =>
    intro a h
    rw [List.dropWhile_cons] at h
    by_cases hp : p x = true
    · exact ih a (by simpa [hp] using h)
    · simp [hp] at h
      subst h
      simpa using hp

theorem mem_trimList {c : Char} {l : List Char} (h : c ∈ trimList l) : c ∈ l := by
  unfold trimList at h
  rw [List.mem_reverse] at h
  have h1 := (List.dropWhile_suffix isWs).subset h
  rw [List.mem_reverse] at h1
  exact (List.dropWhile_suffix isWs).subset h1

theorem trimList_head_not_ws {c : Char} {l : List Char}
    (h : (trimList l).head? = some c) : isWs c = false := by
  unfold trimList at h
  rw [List.head?_reverse] at h
  obtain ⟨pre, hpre⟩ := List.dropWhile_suffix (l := (l.dropWhile isWs).reverse) isWs
  have hne : (l.dropWhile isWs).reverse.dropWhile isWs ≠ [] := by
    intro hnil
    rw [hnil] at h
    simp at h
  have hW : (l.dropWhile isWs).reverse.getLast? = some c := by
    rw [← hpre, List.getLast?_append_of_ne_nil pre hne]
    exact h
  rw [List.getLast?_reverse] at hW
  exact head_dropWhile_not isWs l c hW

theorem trimList_getLast_not_ws {c : Char} {l : List Char}
    (h : (trimList l).getLast? = some c) : isWs c = false := by
  unfold trimList at h
  rw [List.getLast?_reverse] at h
  exact head_dropWhile_not isWs (l.dropWhile isWs).reverse c h

theorem replaceReserved_not_reserved (c : Char) : isReserved (replaceReserved c) = false := by
  unfold replaceReserved
  by_cases h : isReserved c
  · simp only [h, if_true]
    decide
  · simp only [h, Bool.false_eq_true, if_false]

theorem strAppend_left_cancel {s t u : String} (h : s ++ t = s ++ u) : t = u := by
  apply String.ext
  have h2 := congrArg String.data h
  rw [String.data_append, String.data_append] at h2
  exact List.append_cancel_left h2

theorem strAppend_right_cancel {s t u : String} (h : s ++ u = t ++ u) : s = t := by
  apply String.ext
  have h2 := congrArg String.data h
  rw [String.data_append, String.data_append] at h2
  exact List.append_cancel_right h2

theorem natRepr_data_ne_nil (n : Nat) : (Nat.repr n).data ≠ [] := by
  rw [repr_eq_digitsSpec]
  exact digitsSpec_ne_nil n

theorem suffixName_inj (stem ext : String) {a b : Nat}
    (h : suffixName stem ext a = suffixName stem ext b) : a = b := by
  unfold suffixName at h
  by_cases he : ext = ""
  · simp only [he, if_true] at h
    exact natRepr_inj (strAppend_left_cancel h)
  · simp only [he, if_false] at h
    have h2 := strAppend_right_cancel h
    have h3 := strAppend_right_cancel h2
    exact natRepr_inj (strAppend_left_cancel h3)

theorem lastDotSplit_eq (l : List Char) :
    ∀ s e, lastDotSplit l = some (s, e) → l = s ++ '.' :: e := by
  induction l with
  | nil => intro s e h; simp [lastDotSplit] at h
  | cons c cs ih =>
    intro s e h
    unfold lastDotSplit at h
    cases h0 : lastDotSplit cs with
    | some se =>
      obtain ⟨s0, e0⟩ := se
      rw [h0] at h
      simp only [Option.some.injEq, Prod.mk.injEq] at h
      obtain ⟨hs, he⟩ := h
      subst hs
      subst he
      rw [ih s0 e0 h0]
      rfl
    | none =>
      rw [h0] at h
      by_cases hc : c = '.'
      · simp only [hc, if_true, Option.some.injEq, Prod.mk.injEq] at h
        obtain ⟨hs, he⟩ := h
        subst hs
        subst he
        simp [hc]
      · simp [hc] at h

theorem file_stem_ext_nil {orig : String} (h : orig.data = []) :
    file_stem_ext orig = (orig, "") := by
  unfold file_stem_ext
  rw [h]

theorem file_stem_ext_cons_some {orig : String} {c0 : Char} {rest s e : List Char}
    (h : orig.data = c0 :: rest) (h2 : lastDotSplit rest = some (s, e)) :
    file_stem_ext orig = (⟨c0 :: s⟩, ⟨e⟩) := by
  unfold file_stem_ext
  rw [h]
  show (match lastDotSplit rest with
    | some (s, e) => ((⟨c0 :: s⟩ : String), (⟨e⟩ : String))
    | none => (orig, "")) = _
  rw [h2]

theorem file_stem_ext_cons_none {orig : String} {c0 : Char} {rest : List Char}
    (h : orig.data = c0 :: rest) (h2 : lastDotSplit rest = none) :
    file_stem_ext orig = (orig, "") := by
  unfold file_stem_ext
  rw [h]
  show (match lastDotSplit rest with
    | some (s, e) => ((⟨c0 :: s⟩ : String), (⟨e⟩ : String))
    | none => (orig, "")) = _
  rw [h2]

/-- Either the name has no separating dot (stem is the whole name and the
extension is empty) or the name decomposes as stem, dot, extension. -/
theorem file_stem_ext_recompose (orig : String) :
    ((file_stem_ext orig).2 = "" ∧ (file_stem_ext orig).1 = orig) ∨
      orig.data = (file_stem_ext orig).1.data ++ '.' :: (file_stem_ext orig).2.data := by
  cases hd : orig.data with
  | nil => left; rw [file_stem_ext_nil hd]; exact ⟨rfl, rfl⟩
  | cons c0 rest =>
    cases hsplit : lastDotSplit rest with
    | some se =>
      obtain ⟨s, e⟩ := se
      right
      rw [file_stem_ext_cons_some hd hsplit, lastDotSplit_eq rest s e hsplit]
      rfl
    | none => left; rw [file_stem_ext_cons_none hd hsplit]; exact ⟨rfl, rfl⟩

theorem self_ne_suffixName (orig : String) (k : Nat) :
    orig ≠ suffixName (file_stem_ext orig).1 (file_stem_ext orig).2 k := by
  intro h
  have hdata := congrArg String.data h
  rcases file_stem_ext_recompose orig with ⟨he, hs⟩ | hdec
  · rw [he, hs] at hdata
    unfold suffixName at hdata
    simp only [if_true] at hdata
    rw [String.data_append, String.data_append] at hdata
    have hlen := congrArg List.length hdata
    simp at hlen
  · by_cases he : (file_stem_ext orig).2 = ""
    · unfold suffixName at hdata
      simp only [he, if_true] at hdata
      rw [String.data_append, String.data_append] at hdata
      rw [he] at hdec
      simp only [String.data, show ("" : String).data = [] from rfl] at hdec
      rw [hdec, List.append_assoc] at hdata
      have h2 := List.append_cancel_left hdata
      have h3 := congrArg List.head? h2
      rw [show ("_" : String).data = ['_'] from rfl] at h3
      simp at h3
    · unfold suffixName at hdata
      simp only [he, if_false] at hdata
      repeat rw [String.data_append] at hdata
      rw [hdec] at hdata
      repeat rw [List.append_assoc] at hdata
      have h2 := List.append_cancel_left hdata
      have h3 := congrArg List.head? h2
      rw [show ("_" : String).data = ['_'] from rfl] at h3
      simp at h3

theorem nameAt_inj (orig : String) {a b : Nat} (h : nameAt orig a = nameAt orig b) :
    a = b := by
  unfold nameAt at h
  by_cases ha : a = 0
  · by_cases hb : b = 0
    · omega
    · simp only [ha, hb, if_true, if_false] at h
      exact absurd h (self_ne_suffixName orig b)
  · by_cases hb : b = 0
    · simp only [ha, hb, if_true, if_false] at h
      exact absurd h.symm (self_ne_suffixName orig a)
    · simp only [ha, hb, if_false] at h
      exact suffixName_inj _ _ h

theorem find?_filter_ne {β : Type} (k k0 : String) (hne : k ≠ k0) :
    ∀ l : List (String × β),
      (l.filter (fun p => p.1 ≠ k0)).find? (fun p => p.1 = k) =
        l.find? (fun p => p.1 = k) := by
  intro l
  induction l with
  | nil => rfl
  | cons p ps ih =>
    by_cases hk : p.1 = k
    · have hne2 : p.1 ≠ k0 := by rw [hk]; exact hne
      rw [List.filter_cons_of_pos (by simpa using hne2)]
      rw [List.find?_cons_of_pos _ (by simpa using hk),
        List.find?_cons_of_pos _ (by simpa using hk)]
    · by_cases hk0 : p.1 = k0
      · rw [List.filter_cons_of_neg (by simpa using hk0)]
        rw [ih]
        rw [List.find?_cons_of_neg _ (by simpa using hk)]
      · rw [List.filter_cons_of_pos (by simpa using hk0)]
        rw [List.find?_cons_of_neg _ (by simpa using hk),
          List.find?_cons_of_neg _ (by simpa using hk)]
        exact ih

theorem alookup_ainsert_self {β : Type} (m : List (String × β)) (k : String) (v : β) :
    alookup (ainsert m k v) k = some v := by
  unfold alookup ainsert
  rw [List.find?_cons_of_pos _ (by simp)]
  rfl

theorem alookup_ainsert_ne {β : Type} (m : List (String × β)) (k k2 : String) (v : β)
    (h : k2 ≠ k) : alookup (ainsert m k v) k2 = alookup m k2 := by
  unfold alookup ainsert
  rw [List.find?_cons_of_neg _ (by simpa using fun he => h he.symm)]
  rw [find?_filter_ne k2 k h m]

theorem usedLookup_usedInsert_self (used : UsedNames) (cat orig : String) (c : Nat) :
    usedLookup (usedInsert used cat orig c) cat orig = some c := by
  unfold usedLookup usedInsert
  rw [alookup_ainsert_self]
  simp [alookup_ainsert_self]

theorem usedLookup_usedInsert_ne (used : UsedNames) (cat orig cat2 orig2 : String)
    (c : Nat) (h : ¬ (cat2 = cat ∧ orig2 = orig)) :
    usedLookup (usedInsert used cat orig c) cat2 orig2 = usedLookup used cat2 orig2 := by
  unfold usedLookup usedInsert
  by_cases hcat : cat2 = cat
  · subst hcat
    rw [alookup_ainsert_self]
    have horig : orig2 ≠ orig := fun he => h ⟨rfl, he⟩
    show alookup (ainsert ((alookup used cat2).getD []) orig c) orig2 = _
    rw [alookup_ainsert_ne _ _ _ _ horig]
    cases hm : alookup used cat2 with
    | none => simp [alookup]
    | some m => simp
  · rw [alookup_ainsert_ne _ _ _ _ hcat]

theorem FS.exists_mem {fs : FS} {p : String} (h : fs.exists p = true) :
    p ∈ fs.files ++ fs.dirs := by
  unfold FS.exists at h
  rw [List.mem_append]
  simpa using h

theorem probe_loop_some_spec (fs : FS) (folder stem ext : String) :
    ∀ (fuel counter : Nat) (name : String) (c : Nat),
      probe_loop fs folder stem ext counter fuel = some (name, c) →
      name = suffixName stem ext c ∧ counter ≤ c ∧
        fs.exists (pjoin folder name) = false := by
  intro fuel
  induction fuel with
  | zero => intro counter name c h; simp [probe_loop] at h
  | succ fuel ih =>
    intro counter name c h
    unfold probe_loop at h
    by_cases hex : fs.exists (pjoin folder (suffixName stem ext counter)) = true
    · rw [if_pos hex] at h
      obtain ⟨h1, h2, h3⟩ := ih (counter + 1) name c h
      exact ⟨h1, by omega, h3⟩
    · rw [if_neg hex] at h
      simp only [Option.some.injEq, Prod.mk.injEq] at h
      obtain ⟨h1, h2⟩ := h
      subst h2
      exact ⟨h1.symm, Nat.le_refl _, by rw [← h1]; simpa using hex⟩

theorem probe_loop_none_mem (fs : FS) (folder stem ext : String) :
    ∀ (fuel counter : Nat),
      probe_loop fs folder stem ext counter fuel = none →
      ∀ j < fuel, fs.exists (pjoin folder (suffixName stem ext (counter + j))) = true := by
  intro fuel
  induction fuel with
  | zero => intro counter h j hj; omega
  | succ fuel ih =>
    intro counter h j hj
    unfold probe_loop at h
    by_cases hex : fs.exists (pjoin folder (suffixName stem ext counter)) = true
    · rw [if_pos hex] at h
      cases j with
      | zero => simpa using hex
      | succ j =>
        have := ih (counter + 1) h j (by omega)
        rw [show counter + 1 + j = counter + (j + 1) by omega] at this
        exact this
    · rw [if_neg hex] at h
      exact absurd h (by simp)

theorem pjoin_suffix_injective (folder stem ext : String) (counter : Nat) :
    Function.Injective (fun j : Nat => pjoin folder (suffixName stem ext (counter + j))) := by
  intro a b h
  unfold pjoin at h
  have h2 := strAppend_left_cancel h
  have h3 := suffixName_inj stem ext h2
  omega

theorem probe_loop_adequate (fs : FS) (folder stem ext : String) (counter : Nat) :
    probe_loop fs folder stem ext counter (probeFuel fs) ≠ none := by
  intro h
  have hmem := probe_loop_none_mem fs folder stem ext (probeFuel fs) counter h
  set n := fs.files.length + fs.dirs.length with hn
  have hfuel : probeFuel fs = n + 1 := rfl
  set f : Nat → String := fun j => pjoin folder (suffixName stem ext (counter + j)) with hf
  set L : List String := (List.range (n + 1)).map f with hL
  have hnodup : L.Nodup :=
    List.Nodup.map (pjoin_suffix_injective folder stem ext counter) (List.nodup_range _)
  have hsub : ∀ x ∈ L, x ∈ fs.files ++ fs.dirs := by
    intro x hx
    rw [hL, List.mem_map] at hx
    obtain ⟨j, hj, rfl⟩ := hx
    rw [List.mem_range] at hj
    exact FS.exists_mem (hmem j (by omega))
  have hcard : L.toFinset.card = n + 1 := by
    rw [List.toFinset_card_of_nodup hnodup, hL]
    simp
  have hsubset : L.toFinset ⊆ (fs.files ++ fs.dirs).toFinset := by
    intro x hx
    rw [List.mem_toFinset] at hx ⊢
    exact hsub x hx
  have hle := Finset.card_le_card hsubset
  have hle2 := List.toFinset_card_le (fs.files ++ fs.dirs)
  rw [hcard] at hle
  rw [List.length_append] at hle2
  omega

theorem gen_used_key (fs : FS) (folder orig : String) (used : UsedNames)
    (cat : String) (c : Nat) (h : usedLookup used cat orig = some c) :
    generate_unique_filename fs folder orig used cat =
      (nameAt orig (c + 1), usedInsert used cat orig (c + 1)) := by
  unfold generate_unique_filename
  rw [h]
  unfold nameAt
  rw [if_neg (by omega : ¬ c + 1 = 0)]

theorem gen_fresh_key (fs : FS) (folder orig : String) (used : UsedNames)
    (cat : String) (h : usedLookup used cat orig = none) :
    ∃ c, generate_unique_filename fs folder orig used cat =
        (nameAt orig c, usedInsert used cat orig c) ∧
      fs.exists (pjoin folder (nameAt orig c)) = false := by
  unfold generate_unique_filename
  rw [h]
  by_cases hex : fs.exists (pjoin folder orig) = true
  · rw [if_pos hex]
    cases hp : probe_loop fs folder (file_stem_ext orig).1 (file_stem_ext orig).2 1
        (probeFuel fs) with
    | none => exact absurd hp (probe_loop_adequate fs folder _ _ 1)
    | some nc =>
      obtain ⟨name, c⟩ := nc
      obtain ⟨h1, h2, h3⟩ := probe_loop_some_spec fs folder _ _ _ _ name c hp
      have hna : nameAt orig c = name := by
        unfold nameAt
        rw [if_neg (by omega : ¬ c = 0)]
        exact h1.symm
      refine ⟨c, ?_, ?_⟩
      · simp only [hp, hna]
      · rw [hna]
        exact h3
  · rw [if_neg hex]
    refine ⟨0, ?_, ?_⟩
    · rfl
    · show fs.exists (pjoin folder orig) = false
      simpa using hex

/-- On a call whose key is fresh (the first, disk-probing request for this
`(category, original)` pair), the returned name does not exist in the folder. -/
theorem gen_fresh_not_on_disk (fs : FS) (folder orig : String) (used : UsedNames)
    (cat : String) (h : usedLookup used cat orig = none) :
    fs.exists (pjoin folder (generate_unique_filename fs folder orig used cat).1) = false := by
  obtain ⟨c, heq, hex⟩ := gen_fresh_key fs folder orig used cat h
  rw [heq]
  exact hex

/-- Every resolver call returns `nameAt orig c` for some counter `c`, records
exactly that counter for its key, and strictly increases the counter when the
key was already present. -/
theorem gen_shape (fs : FS) (folder orig : String) (used : UsedNames) (cat : String) :
    ∃ c, generate_unique_filename fs folder orig used cat =
        (nameAt orig c, usedInsert used cat orig c) ∧
      (∀ cp, usedLookup used cat orig = some cp → c = cp + 1) := by
  cases h : usedLookup used cat orig with
  | none =>
    obtain ⟨c, heq, -⟩ := gen_fresh_key fs folder orig used cat h
    exact ⟨c, heq, fun cp hcp => Option.noConfusion hcp⟩
  | some cp =>
    exact ⟨cp + 1, gen_used_key fs folder orig used cat cp h,
      fun cp2 hcp2 => by rw [Option.some.inj hcp2]⟩

/-! ## Claim theorems -/

/-- Claim C3: a filename that does not start with the catalog literal `ES_`
is categorized as `SFX` for every mode, every genre, every mood and even in
the presence of an explicit category override. -/
theorem organize_sfx_overrides_everything (file : AudioMetadata) (mode : String)
    (h : starts_with file.filename "ES_" = false) :
    get_file_category file mode = "SFX" := by
  unfold get_file_category is_sfx_file
  simp [h]

/-- Witness for C3: a concrete non-catalog file with genre, mood and an
explicit override still lands in `SFX` under both modes. -/
theorem organize_sfx_overrides_everything_witness :
    starts_with "explosion_01.wav" "ES_" = false ∧
      get_file_category
        ⟨"fx/explosion_01.wav", "explosion_01.wav", none, none, some "Rock",
          some "Sad", none, none, none, some "Ambient"⟩ "genre" = "SFX" :=
  ⟨by decide,
    organize_sfx_overrides_everything
      ⟨"fx/explosion_01.wav", "explosion_01.wav", none, none, some "Rock",
        some "Sad", none, none, none, some "Ambient"⟩ "genre" (by decide)⟩

/-- Claim C6: for a catalog-prefixed file without an override, mode `mood`
yields the trimmed first comma-separated token of the mood field, mode
`genre` yields the genre field, every other mode resolves nothing, and an
unresolved value falls back to `Unknown`; concretely, `ES_Calm_Piano.mp3`
with mood `Relaxed, Warm` maps to `Relaxed` under mode `mood`. -/
theorem organize_mode_resolution (file : AudioMetadata) (mode m g : String)
    (hes : starts_with file.filename "ES_" = true)
    (hov : file.category_override = none) :
    (file.mood = some m →
      get_file_category file "mood" = strTrim ⟨(splitChar ',' m.data).headD "Unknown".data⟩) ∧
    (file.genre = some g → get_file_category file "genre" = g) ∧
    (file.mood = none → get_file_category file "mood" = "Unknown") ∧
    (file.genre = none → get_file_category file "genre" = "Unknown") ∧
    (mode ≠ "genre" → mode ≠ "mood" → get_file_category file mode = "Unknown") ∧
    get_file_category
      ⟨"lib/ES_Calm_Piano.mp3", "ES_Calm_Piano.mp3", none, none, none,
        some "Relaxed, Warm", none, none, none, none⟩ "mood" = "Relaxed" := by
  refine ⟨?_, ?_, ?_, ?_, ?_, by decide⟩
  · intro h
    simp [get_file_category, is_sfx_file, hes, hov, h]
  · intro h
    simp [get_file_category, is_sfx_file, hes, hov, h]
  · intro h
    simp [get_file_category, is_sfx_file, hes, hov, h]
  · intro h
    simp [get_file_category, is_sfx_file, hes, hov, h]
  · intro h1 h2
    simp [get_file_category, is_sfx_file, hes, hov, h1, h2]

/-- Witness for C6: the concrete scenario of the claim, discharged through the
theorem at the concrete metadata record. -/
theorem organize_mode_resolution_witness :
    get_file_category
      ⟨"lib/ES_Calm_Piano.mp3", "ES_Calm_Piano.mp3", none, none, none,
        some "Relaxed, Warm", none, none, none, none⟩ "mood" = "Relaxed" :=
  (organize_mode_resolution
    ⟨"lib/ES_Calm_Piano.mp3", "ES_Calm_Piano.mp3", none, none, none,
      some "Relaxed, Warm", none, none, none, none⟩ "other" "Relaxed, Warm" "g"
    (by decide) rfl).2.2.2.2.2

/-- Claim C7: sanitization replaces every reserved character with an
underscore and trims surrounding whitespace, and it happens only after
categorization: the categorizer itself hands back override values verbatim,
and the engine folders are the sanitized image of the raw category. -/
theorem sanitize_after_categorization (name : String) (file : AudioMetadata)
    (mode cat : String) :
    (∀ c ∈ (sanitize_folder_name name).data, isReserved c = false) ∧
    (∀ c, (sanitize_folder_name name).data.head? = some c → isWs c = false) ∧
    (∀ c, (sanitize_folder_name name).data.getLast? = some c → isWs c = false) ∧
    (is_sfx_file file.filename = false → file.category_override = some cat →
      get_file_category file mode = cat) ∧
    preview_organization [file] mode =
      [(sanitize_folder_name (get_file_category file mode), [file.filename])] := by
  refine ⟨?_, ?_, ?_, ?_, rfl⟩
  · intro c hc
    have hmem := mem_trimList (l := name.data.map replaceReserved) hc
    obtain ⟨a, _, rfl⟩ := List.mem_map.mp hmem
    exact replaceReserved_not_reserved a
  · intro c hc
    exact trimList_head_not_ws hc
  · intro c hc
    exact trimList_getLast_not_ws hc
  · intro hsfx hover
    simp [get_file_category, hsfx, hover]

/-- Witness for C7: a concrete override containing reserved characters is
returned raw by the categorizer, while the sanitizer output for the same
label is cleaned. -/
theorem sanitize_after_categorization_witness :
    get_file_category
      ⟨"lib/ES_A.mp3", "ES_A.mp3", none, none, none, none, none, none, none,
        some " Rock/Pop "⟩ "genre" = " Rock/Pop " ∧
      sanitize_folder_name " Rock/Pop " = "Rock_Pop" :=
  ⟨(sanitize_after_categorization " Rock/Pop "
      ⟨"lib/ES_A.mp3", "ES_A.mp3", none, none, none, none, none, none, none,
        some " Rock/Pop "⟩ "genre" " Rock/Pop ").2.2.2.1 (by decide) rfl,
    by decide⟩

/-- Counterexample to claim C1 as stated: when the live stat fails, the code
does not always miss — it compares against the `unwrap_or(0)` sentinel
identity, so a row whose stored identity is `(0, 0)` (here produced by
`cache_metadata` while the file was already unstatable) is returned even
though the stat failed. -/
theorem cache_stat_failure_hit_counterexample :
    get_cached_metadata none
        (cache_metadata none []
          ⟨"music/a.mp3", "a.mp3", none, none, none, none, none, none, none, none⟩)
        "music/a.mp3" =
      .ok (some ⟨"music/a.mp3", "a.mp3", none, none, none, none, none, none, none, none⟩) ∧
    get_cached_metadata none
        (cache_metadata none []
          ⟨"music/a.mp3", "a.mp3", none, none, none, none, none, none, none, none⟩)
        "music/a.mp3" ≠
      .ok none := by
  refine ⟨rfl, fun h => ?_⟩
  rw [show get_cached_metadata none
        (cache_metadata none []
          ⟨"music/a.mp3", "a.mp3", none, none, none, none, none, none, none, none⟩)
        "music/a.mp3" =
      .ok (some ⟨"music/a.mp3", "a.mp3", none, none, none, none, none, none, none, none⟩)
    from rfl] at h
  exact Option.noConfusion (Except.ok.inj h)

/-- Amended claim C1: the lookup returns a cached record exactly when a row
for the path exists whose stored `file_modified` and `file_size` equal the
live values computed with every stat failure defaulted to `0`; in every case
the call returns `Ok`, never an error.  (A failed stat therefore misses
unless the stored identity happens to be the `(0, 0)` sentinel.) -/
theorem cache_lookup_identity (stat : Option (Int × Int)) (db : List CacheRow)
    (p : String) :
    (∃ o, get_cached_metadata stat db p = .ok o) ∧
    ((∃ md, get_cached_metadata stat db p = .ok (some md)) ↔
      ∃ row, db.find? (fun r => r.file_path = p) = some row ∧
        row.file_modified = liveModified stat ∧ row.file_size = liveSize stat) := by
  cases hfind : db.find? (fun r => r.file_path = p) with
  | none =>
    have hval : get_cached_metadata stat db p = .ok none := by
      unfold get_cached_metadata
      rw [hfind]
    refine ⟨⟨none, hval⟩, ?_, ?_⟩
    · rintro ⟨md, hmd⟩
      rw [hval] at hmd
      exact Option.noConfusion (Except.ok.inj hmd)
    · rintro ⟨row, hrow, -⟩
      exact Option.noConfusion hrow
  | some row =>
    by_cases hid : row.file_modified ≠ liveModified stat ∨ row.file_size ≠ liveSize stat
    · have hval : get_cached_metadata stat db p = .ok none := by
        unfold get_cached_metadata
        rw [hfind]
        simp only [hid, if_true]
      refine ⟨⟨none, hval⟩, ?_, ?_⟩
      · rintro ⟨md, hmd⟩
        rw [hval] at hmd
        exact Option.noConfusion (Except.ok.inj hmd)
      · rintro ⟨row2, hrow2, hm, hs⟩
        cases Option.some.inj hrow2
        rcases hid with h | h
        · exact absurd hm h
        · exact absurd hs h
    · have hval : ∃ md, get_cached_metadata stat db p = .ok (some md) := by
        unfold get_cached_metadata
        rw [hfind]
        simp only [hid, if_false]
        exact ⟨_, rfl⟩
      push_neg at hid
      obtain ⟨md, hmd⟩ := hval
      exact ⟨⟨some md, hmd⟩, fun _ => ⟨row, rfl, hid.1, hid.2⟩, fun _ => ⟨md, hmd⟩⟩

/-- Witness for the amended C1: a concrete matching row is returned under a
successful stat with equal identity fields. -/
theorem cache_lookup_identity_witness :
    ∃ md, get_cached_metadata (some (5, 7))
        [⟨"music/a.mp3", 5, 7, none, none, none, none, none, none, none⟩]
        "music/a.mp3" = .ok (some md) :=
  (cache_lookup_identity (some (5, 7))
      [⟨"music/a.mp3", 5, 7, none, none, none, none, none, none, none⟩]
      "music/a.mp3").2.mpr
    ⟨⟨"music/a.mp3", 5, 7, none, none, none, none, none, none, none⟩, rfl, rfl, rfl⟩

/-- Claim C8: the first batch request for a `(category, filename)` key with no
on-disk collision keeps the name unchanged and records counter `0`; the second
request for the same key gets the `_1` variant inserted before the extension,
regardless of the disk state it sees, and an extension-less name gets the
suffix appended directly with no trailing dot. -/
theorem resolver_first_unchanged_second_suffixed (fs fs2 : FS)
    (folder orig : String) (used : UsedNames) (cat : String)
    (h0 : usedLookup used cat orig = none)
    (hex : fs.exists (pjoin folder orig) = false) :
    (generate_unique_filename fs folder orig used cat).1 = orig ∧
    usedLookup (generate_unique_filename fs folder orig used cat).2 cat orig = some 0 ∧
    (generate_unique_filename fs2 folder orig
        (generate_unique_filename fs folder orig used cat).2 cat).1 =
      suffixName (file_stem_ext orig).1 (file_stem_ext orig).2 1 ∧
    ((file_stem_ext orig).2 = "" →
      (generate_unique_filename fs2 folder orig
          (generate_unique_filename fs folder orig used cat).2 cat).1 =
        (file_stem_ext orig).1 ++ "_1") := by
  have hstep : generate_unique_filename fs folder orig used cat =
      (orig, usedInsert used cat orig 0) := by
    unfold generate_unique_filename
    rw [h0, if_neg (by simp [hex])]
  have hlook : usedLookup (generate_unique_filename fs folder orig used cat).2 cat orig
      = some 0 := by
    rw [hstep]
    exact usedLookup_usedInsert_self used cat orig 0
  have hsecond : (generate_unique_filename fs2 folder orig
      (generate_unique_filename fs folder orig used cat).2 cat).1 =
      suffixName (file_stem_ext orig).1 (file_stem_ext orig).2 1 := by
    rw [gen_used_key fs2 folder orig _ cat 0 hlook]
    unfold nameAt
    rw [if_neg (by omega : ¬ 0 + 1 = 0)]
  refine ⟨by rw [hstep], hlook, hsecond, ?_⟩
  intro he
  rw [hsecond]
  unfold suffixName
  rw [if_pos he]
  apply String.ext
  repeat rw [String.data_append]
  rw [List.append_assoc]
  have hrep : ("_" : String).data ++ (Nat.repr 1).data = ("_1" : String).data := by decide
  rw [hrep]

/-- Witness for C8: two requests for `ES_Track.mp3` yield `ES_Track.mp3` then
`ES_Track_1.mp3`, and two requests for the extension-less `name` yield `name`
then `name_1`. -/
theorem resolver_first_unchanged_second_suffixed_witness :
    (generate_unique_filename ⟨[], [], [], []⟩ "out/Ambient" "ES_Track.mp3" [] "Ambient").1
        = "ES_Track.mp3" ∧
    (generate_unique_filename ⟨[], [], [], []⟩ "out/Ambient" "ES_Track.mp3"
        (generate_unique_filename ⟨[], [], [], []⟩ "out/Ambient" "ES_Track.mp3" []
          "Ambient").2 "Ambient").1 = "ES_Track_1.mp3" ∧
    (generate_unique_filename ⟨[], [], [], []⟩ "out/X" "name" [] "X").1 = "name" ∧
    (generate_unique_filename ⟨[], [], [], []⟩ "out/X" "name"
        (generate_unique_filename ⟨[], [], [], []⟩ "out/X" "name" [] "X").2 "X").1
      = "name_1" := by
  have h1 := resolver_first_unchanged_second_suffixed ⟨[], [], [], []⟩ ⟨[], [], [], []⟩
    "out/Ambient" "ES_Track.mp3" [] "Ambient" (by decide) (by decide)
  have h2 := resolver_first_unchanged_second_suffixed ⟨[], [], [], []⟩ ⟨[], [], [], []⟩
    "out/X" "name" [] "X" (by decide) (by decide)
  refine ⟨h1.1, ?_, h2.1, ?_⟩
  · rw [h1.2.2.1]
    decide
  · rw [h2.2.2.2 (by decide)]
    decide

theorem runResolver_key_gt (output_folder : String) :
    ∀ (reqs : List ResolveReq) (used : UsedNames) (cat orig : String) (c : Nat),
      usedLookup used cat orig = some c →
      ∀ t ∈ runResolver output_folder used reqs,
        t.1 = cat → t.2.1 = orig → ∃ k, c < k ∧ t.2.2 = nameAt orig k := by
  intro reqs
  induction reqs with
  | nil =>
    intro used cat orig c h t ht
    simp [runResolver] at ht
  | cons r rest ih =>
    intro used cat orig c h t ht hcat horig
    obtain ⟨k0, hg, hinc⟩ :=
      gen_shape r.fs (pjoin output_folder r.category) r.original used r.category
    simp only [runResolver, List.mem_cons] at ht
    rcases ht with rfl | ht
    · simp only at hcat horig
      subst hcat
      subst horig
      have hk0 : k0 = c + 1 := hinc c h
      refine ⟨k0, by omega, ?_⟩
      rw [hg]
    · by_cases hkey : t.1 = r.category ∧ t.2.1 = r.original
      · have hlook : usedLookup
            (generate_unique_filename r.fs (pjoin output_folder r.category) r.original used
              r.category).2 r.category r.original = some k0 := by
          rw [hg]
          exact usedLookup_usedInsert_self used r.category r.original k0
        rw [hcat, horig] at hkey
        obtain ⟨hc2, ho2⟩ := hkey
        subst hc2
        subst ho2
        obtain ⟨k, hk, hname⟩ := ih _ _ _ k0 hlook t ht hcat horig
        have hk0 : k0 = c + 1 := hinc c h
        exact ⟨k, by omega, hname⟩
      · have hne : ¬ (cat = r.category ∧ orig = r.original) := by
          intro hco
          exact hkey ⟨by rw [hcat, hco.1], by rw [horig, hco.2]⟩
        have hlook : usedLookup
            (generate_unique_filename r.fs (pjoin output_folder r.category) r.original used
              r.category).2 cat orig = some c := by
          rw [hg]
          rw [usedLookup_usedInsert_ne used r.category r.original cat orig k0 hne]
          exact h
        exact ih _ cat orig c hlook t ht hcat horig

theorem runResolver_pairwise (output_folder : String) :
    ∀ (reqs : List ResolveReq) (used : UsedNames),
      List.Pairwise (fun t u => t.1 = u.1 → t.2.1 = u.2.1 → t.2.2 ≠ u.2.2)
        (runResolver output_folder used reqs) := by
  intro reqs
  induction reqs with
  | nil => intro used; simp [runResolver]
  | cons r rest ih =>
    intro used
    simp only [runResolver]
    rw [List.pairwise_cons]
    constructor
    · intro u hu hcat horig
      obtain ⟨k0, hg, -⟩ :=
        gen_shape r.fs (pjoin output_folder r.category) r.original used r.category
      have hlook : usedLookup
          (generate_unique_filename r.fs (pjoin output_folder r.category) r.original used
            r.category).2 r.category r.original = some k0 := by
        rw [hg]
        exact usedLookup_usedInsert_self used r.category r.original k0
      simp only at hcat horig
      obtain ⟨k, hk, hname⟩ := runResolver_key_gt output_folder rest _ r.category r.original
        k0 hlook u hu hcat.symm horig.symm
      intro heq
      rw [hname] at heq
      have hfst : (generate_unique_filename r.fs (pjoin output_folder r.category) r.original
          used r.category).1 = nameAt r.original k0 := by rw [hg]
      rw [hfst] at heq
      have := nameAt_inj r.original heq
      omega
    · exact ih _

/-- Counterexample to claim C2 as stated: within one batch (static empty
disk), the resolver hands out the pair `(SFX, name_1.mp3)` twice — first for
the original `name_1.mp3`, then as the suffixed variant of the second request
for `name.mp3` — because repeat requests increment their own counter without
checking names issued for other originals. -/
theorem resolver_pair_collision_counterexample :
    (runResolver "out" []
        [⟨⟨[], [], [], []⟩, "name_1.mp3", "SFX"⟩,
         ⟨⟨[], [], [], []⟩, "name.mp3", "SFX"⟩,
         ⟨⟨[], [], [], []⟩, "name.mp3", "SFX"⟩]).map (fun t => (t.1, t.2.2)) =
      [("SFX", "name_1.mp3"), ("SFX", "name.mp3"), ("SFX", "name_1.mp3")] ∧
    ¬ ((runResolver "out" []
        [⟨⟨[], [], [], []⟩, "name_1.mp3", "SFX"⟩,
         ⟨⟨[], [], [], []⟩, "name.mp3", "SFX"⟩,
         ⟨⟨[], [], [], []⟩, "name.mp3", "SFX"⟩]).map (fun t => (t.1, t.2.2))).Nodup := by
  constructor
  · decide
  · decide

/-- Amended claim C2: within one organize batch the resolver never returns
the same name twice for the same `(category, original filename)` key — even
under an adversarially changing disk — and the name returned by a call whose
first probe checked the disk never collides with a file or folder present at
that time.  (Names arising from two different original filenames may still
coincide, as the counterexample shows; the source documents this
suffix-collision case as an accepted limitation.) -/
theorem resolver_batch_guarantees (output_folder : String) (reqs : List ResolveReq)
    (fs : FS) (folder original category : String) (used : UsedNames) :
    List.Pairwise (fun t u => t.1 = u.1 → t.2.1 = u.2.1 → t.2.2 ≠ u.2.2)
      (runResolver output_folder [] reqs) ∧
    (usedLookup used category original = none →
      fs.exists (pjoin folder (generate_unique_filename fs folder original used category).1)
        = false) :=
  ⟨runResolver_pairwise output_folder reqs [],
    fun h => gen_fresh_not_on_disk fs folder original used category h⟩

/-- Witness for the amended C2: a first probing call for `name.mp3` against a
disk already holding `out/SFX/name.mp3` produces a name that is free on that
disk. -/
theorem resolver_batch_guarantees_witness :
    FS.exists ⟨["out/SFX/name.mp3"], [], [], []⟩
      (pjoin "out/SFX"
        (generate_unique_filename ⟨["out/SFX/name.mp3"], [], [], []⟩ "out/SFX"
          "name.mp3" [] "SFX").1) = false :=
  (resolver_batch_guarantees "out" [] ⟨["out/SFX/name.mp3"], [], [], []⟩ "out/SFX"
    "name.mp3" "SFX" []).2 rfl

theorem organizeLoop_counts (output_folder organize_by operation : String) :
    ∀ (files : List AudioMetadata) (fs : FS) (used : UsedNames) (acc : OrganizeResult),
      ∃ a b,
        (organizeLoop output_folder organize_by operation fs used acc files).1.success_count
            = acc.success_count + a ∧
        (organizeLoop output_folder organize_by operation fs used acc files).1.error_count
            = acc.error_count + b ∧
        a + b = files.length ∧
        (organizeLoop output_folder organize_by operation fs used acc files).1.errors.length
            = acc.errors.length + b ∧
        (organizeLoop output_folder organize_by operation fs used acc files).1.skipped_count
            = acc.skipped_count := by
  intro files
  induction files with
  | nil =>
    intro fs used acc
    exact ⟨0, 0, rfl, rfl, rfl, rfl, rfl⟩
  | cons f rest ih =>
    intro fs used acc
    rcases hstep : organize_step output_folder organize_by operation fs used f with
      ⟨msgOpt, fs2, used2⟩
    cases msgOpt with
    | none =>
      obtain ⟨a, b, h1, h2, h3, h4, h5⟩ := ih fs2 used2
        { acc with success_count := acc.success_count + 1 }
      refine ⟨a + 1, b, ?_, ?_, by simp; omega, ?_, ?_⟩
      · simp only [organizeLoop, hstep]
        rw [h1]
        simp
        omega
      · simp only [organizeLoop, hstep]
        rw [h2]
      · simp only [organizeLoop, hstep]
        rw [h4]
      · simp only [organizeLoop, hstep]
        rw [h5]
    | some msg =>
      obtain ⟨a, b, h1, h2, h3, h4, h5⟩ := ih fs2 used2
        { acc with
          error_count := acc.error_count + 1
          errors := acc.errors ++ [msg] }
      refine ⟨a, b + 1, ?_, ?_, by simp; omega, ?_, ?_⟩
      · simp only [organizeLoop, hstep]
        rw [h1]
      · simp only [organizeLoop, hstep]
        rw [h2]
        simp
        omega
      · simp only [organizeLoop, hstep]
        rw [h4]
        simp [List.length_append]
        omega
      · simp only [organizeLoop, hstep]
        rw [h5]

/-- Claim C10: whenever `organize_files` returns `Ok`, the result satisfies
`skipped_count = 0`, `success_count + error_count = number of input files`,
and the errors list carries exactly `error_count` messages. -/
theorem organize_result_invariants (fs : FS) (files : List AudioMetadata)
    (output_folder organize_by operation : String) (r : OrganizeResult) (fs2 : FS)
    (h : organize_files fs files output_folder organize_by operation = .ok (r, fs2)) :
    r.skipped_count = 0 ∧ r.success_count + r.error_count = files.length ∧
      r.errors.length = r.error_count := by
  unfold organize_files at h
  cases hroot : fs.create_dir_all output_folder with
  | error e =>
    rw [hroot] at h
    exact Except.noConfusion h
  | ok fsRoot =>
    rw [hroot] at h
    have h2 := Except.ok.inj h
    obtain ⟨a, b, h1, h2e, h3, h4, h5⟩ :=
      organizeLoop_counts output_folder organize_by operation files fsRoot [] ⟨0, 0, 0, []⟩
    rw [h2] at h1 h2e h4 h5
    simp only [List.length_nil] at h1 h2e h4 h5
    refine ⟨h5, ?_, ?_⟩
    · omega
    · omega

/-- Witness for C10: a concrete two-file copy batch returns counts satisfying
the invariants. -/
theorem organize_result_invariants_witness :
    ∃ r fs2,
      organize_files ⟨["a/x.mp3", "b/y.mp3"], [], [], []⟩
          [⟨"a/x.mp3", "x.mp3", none, none, none, none, none, none, none, none⟩,
           ⟨"b/y.mp3", "y.mp3", none, none, none, none, none, none, none, none⟩]
          "out" "genre" "copy" = .ok (r, fs2) ∧
        r.skipped_count = 0 ∧ r.success_count + r.error_count = 2 ∧
        r.errors.length = r.error_count := by
  obtain ⟨r, fs2, hrun⟩ :
      ∃ r fs2, organize_files ⟨["a/x.mp3", "b/y.mp3"], [], [], []⟩
        [⟨"a/x.mp3", "x.mp3", none, none, none, none, none, none, none, none⟩,
         ⟨"b/y.mp3", "y.mp3", none, none, none, none, none, none, none, none⟩]
        "out" "genre" "copy" = .ok (r, fs2) := ⟨_, _, rfl⟩
  obtain ⟨hs, hc, he⟩ := organize_result_invariants _ _ _ _ _ r fs2 hrun
  exact ⟨r, fs2, hrun, hs, hc, he⟩

theorem organize_step_unknown_op (output_folder organize_by operation : String)
    (fs : FS) (used : UsedNames) (file : AudioMetadata)
    (h1 : operation ≠ "move") (h2 : operation ≠ "copy") :
    ∃ msg fs2 used2,
      organize_step output_folder organize_by operation fs used file =
        (some msg, fs2, used2) := by
  simp only [organize_step]
  cases hcd : fs.create_dir_all
      (pjoin output_folder (sanitize_folder_name (get_file_category file organize_by))) with
  | error e => exact ⟨_, _, _, rfl⟩
  | ok fsDir =>
    refine ⟨"Unknown operation: " ++ operation, fsDir,
      (generate_unique_filename fsDir
        (pjoin output_folder (sanitize_folder_name (get_file_category file organize_by)))
        file.filename used (sanitize_folder_name (get_file_category file organize_by))).2, ?_⟩
    simp [h1, h2]

theorem organizeLoop_unknown_op (output_folder organize_by operation : String)
    (h1 : operation ≠ "move") (h2 : operation ≠ "copy") :
    ∀ (files : List AudioMetadata) (fs : FS) (used : UsedNames) (acc : OrganizeResult),
      (organizeLoop output_folder organize_by operation fs used acc files).1.error_count
          = acc.error_count + files.length ∧
      (organizeLoop output_folder organize_by operation fs used acc files).1.success_count
          = acc.success_count ∧
      (organizeLoop output_folder organize_by operation fs used acc files).1.errors.length
          = acc.errors.length + files.length := by
  intro files
  induction files with
  | nil => intro fs used acc; exact ⟨rfl, rfl, rfl⟩
  | cons f rest ih =>
    intro fs used acc
    obtain ⟨msg, fs2, used2, hstep⟩ :=
      organize_step_unknown_op output_folder organize_by operation fs used f h1 h2
    obtain ⟨ha, hb, hc⟩ := ih fs2 used2
      { acc with
        error_count := acc.error_count + 1
        errors := acc.errors ++ [msg] }
    refine ⟨?_, ?_, ?_⟩
    · simp only [organizeLoop, hstep]
      rw [ha]
      simp
      omega
    · simp only [organizeLoop, hstep]
      rw [hb]
    · simp only [organizeLoop, hstep]
      rw [hc]
      simp [List.length_append]
      omega

/-- Claim C4: the whole call fails exactly when creating the destination root
fails; otherwise every file is processed (successes plus errors exhaust the
batch, one message per error), and in particular an unrecognized operation
string produces one error per file without aborting the batch. -/
theorem organize_fatal_only_at_root (fs : FS) (files : List AudioMetadata)
    (output_folder organize_by operation : String) :
    (output_folder ∈ fs.failDirs →
      ∃ e, organize_files fs files output_folder organize_by operation = .error e) ∧
    (output_folder ∉ fs.failDirs →
      ∃ r fs2, organize_files fs files output_folder organize_by operation = .ok (r, fs2) ∧
        r.success_count + r.error_count = files.length ∧
        r.errors.length = r.error_count) ∧
    (operation ≠ "move" → operation ≠ "copy" → output_folder ∉ fs.failDirs →
      ∃ r fs2, organize_files fs files output_folder organize_by operation = .ok (r, fs2) ∧
        r.error_count = files.length ∧ r.success_count = 0 ∧
        r.errors.length = files.length) := by
  refine ⟨?_, ?_, ?_⟩
  · intro hf
    unfold organize_files FS.create_dir_all
    rw [if_pos hf]
    exact ⟨_, rfl⟩
  · intro hf
    obtain ⟨r, fs2, hok⟩ :
        ∃ r fs2, organize_files fs files output_folder organize_by operation = .ok (r, fs2) := by
      unfold organize_files FS.create_dir_all
      rw [if_neg hf]
      exact ⟨_, _, rfl⟩
    obtain ⟨-, hc, he⟩ :=
      organize_result_invariants fs files output_folder organize_by operation r fs2 hok
    exact ⟨r, fs2, hok, hc, he⟩
  · intro h1 h2 hf
    have hok : organize_files fs files output_folder organize_by operation =
        .ok (organizeLoop output_folder organize_by operation
          { fs with dirs := insertPath output_folder fs.dirs } [] ⟨0, 0, 0, []⟩ files) := by
      unfold organize_files FS.create_dir_all
      rw [if_neg hf]
    obtain ⟨ha, hb, hc⟩ := organizeLoop_unknown_op output_folder organize_by operation h1 h2
      files { fs with dirs := insertPath output_folder fs.dirs } [] ⟨0, 0, 0, []⟩
    refine ⟨_, _, hok, ?_, ?_, ?_⟩
    · rw [ha]
      simp
    · rw [hb]
    · rw [hc]
      simp

/-- Witness for C4: a two-file batch with the unrecognized operation
`shuffle` completes with two per-file errors and no success. -/
theorem organize_fatal_only_at_root_witness :
    ∃ r fs2,
      organize_files ⟨["a/x.mp3", "b/y.mp3"], [], [], []⟩
          [⟨"a/x.mp3", "x.mp3", none, none, none, none, none, none, none, none⟩,
           ⟨"b/y.mp3", "y.mp3", none, none, none, none, none, none, none, none⟩]
          "out" "genre" "shuffle" = .ok (r, fs2) ∧
        r.error_count = 2 ∧ r.success_count = 0 ∧ r.errors.length = 2 := by
  obtain ⟨r, fs2, hok, ha, hb, hc⟩ :=
    (organize_fatal_only_at_root ⟨["a/x.mp3", "b/y.mp3"], [], [], []⟩
      [⟨"a/x.mp3", "x.mp3", none, none, none, none, none, none, none, none⟩,
       ⟨"b/y.mp3", "y.mp3", none, none, none, none, none, none, none, none⟩]
      "out" "genre" "shuffle").2.2 (by decide) (by decide) (by simp)
  exact ⟨r, fs2, hok, ha, hb, hc⟩

theorem create_dir_all_files {fs fs2 : FS} {p : String}
    (h : fs.create_dir_all p = .ok fs2) : fs2.files = fs.files := by
  unfold FS.create_dir_all at h
  by_cases hf : p ∈ fs.failDirs
  · rw [if_pos hf] at h
    exact Except.noConfusion h
  · rw [if_neg hf] at h
    rw [← Except.ok.inj h]

theorem copy_files_growth {fs fs2 : FS} {src dst : String}
    (h : fs.copy src dst = .ok fs2) :
    ∃ new : List String, fs2.files = new ++ fs.files ∧ new.length ≤ 1 := by
  unfold FS.copy at h
  by_cases hs : src ∈ fs.files
  · rw [if_pos hs] at h
    rw [← Except.ok.inj h]
    unfold insertPath
    by_cases hd : dst ∈ fs.files
    · exact ⟨[], by simp [hd], by simp⟩
    · exact ⟨[dst], by simp [hd], by simp⟩
  · rw [if_neg hs] at h
    exact Except.noConfusion h

theorem organize_step_copy_files (output_folder organize_by : String) (fs : FS)
    (used : UsedNames) (file : AudioMetadata) :
    (∀ fs2 used2, organize_step output_folder organize_by "copy" fs used file
        = (none, fs2, used2) →
      ∃ new : List String, fs2.files = new ++ fs.files ∧ new.length ≤ 1) ∧
    (∀ msg fs2 used2, organize_step output_folder organize_by "copy" fs used file
        = (some msg, fs2, used2) →
      fs2.files = fs.files) := by
  simp only [organize_step]
  cases hcd : fs.create_dir_all
      (pjoin output_folder (sanitize_folder_name (get_file_category file organize_by))) with
  | error e =>
    constructor
    · intro fs2 used2 heq
      simp only [Prod.mk.injEq] at heq
      exact absurd heq.1 (by simp)
    · intro msg fs2 used2 heq
      simp only [Prod.mk.injEq] at heq
      rw [← heq.2.1]
  | ok fsDir =>
    have hDirFiles := create_dir_all_files hcd
    simp only [show (("copy" : String) = "move") = False by simp,
      show (("copy" : String) = "copy") = True by simp, if_false, if_true]
    cases hcp : fsDir.copy file.path
        (pjoin (pjoin output_folder (sanitize_folder_name (get_file_category file organize_by)))
          (generate_unique_filename fsDir
            (pjoin output_folder (sanitize_folder_name (get_file_category file organize_by)))
            file.filename used (sanitize_folder_name (get_file_category file organize_by))).1) with
    | ok fsOp =>
      constructor
      · intro fs2 used2 heq
        simp only [Prod.mk.injEq] at heq
        obtain ⟨new, hnew, hlen⟩ := copy_files_growth hcp
        rw [← heq.2.1]
        exact ⟨new, by rw [hnew, hDirFiles], hlen⟩
      · intro msg fs2 used2 heq
        simp only [Prod.mk.injEq] at heq
        exact absurd heq.1 (by simp)
    | error e =>
      constructor
      · intro fs2 used2 heq
        simp only [Prod.mk.injEq] at heq
        exact absurd heq.1 (by simp)
      · intro msg fs2 used2 heq
        simp only [Prod.mk.injEq] at heq
        rw [← heq.2.1]
        exact hDirFiles

theorem organizeLoop_copy_growth (output_folder organize_by : String) :
    ∀ (files : List AudioMetadata) (fs : FS) (used : UsedNames) (acc : OrganizeResult),
      ∃ new : List String,
        (organizeLoop output_folder organize_by "copy" fs used acc files).2.files
            = new ++ fs.files ∧
        acc.success_count + new.length ≤
          (organizeLoop output_folder organize_by "copy" fs used acc files).1.success_count := by
  intro files
  induction files with
  | nil =>
    intro fs used acc
    exact ⟨[], rfl, by simp [organizeLoop]⟩
  | cons f rest ih =>
    intro fs used acc
    rcases hstep : organize_step output_folder organize_by "copy" fs used f with
      ⟨msgOpt, fs2, used2⟩
    cases msgOpt with
    | none =>
      obtain ⟨new0, hnew0, hlen0⟩ :=
        (organize_step_copy_files output_folder organize_by fs used f).1 fs2 used2 hstep
      obtain ⟨new1, hnew1, hlen1⟩ := ih fs2 used2
        { acc with success_count := acc.success_count + 1 }
      refine ⟨new1 ++ new0, ?_, ?_⟩
      · simp only [organizeLoop, hstep]
        rw [hnew1, hnew0, List.append_assoc]
      · simp only [organizeLoop, hstep]
        simp only at hlen1
        rw [List.length_append]
        omega
    | some msg =>
      have hsame :=
        (organize_step_copy_files output_folder organize_by fs used f).2 msg fs2 used2 hstep
      obtain ⟨new1, hnew1, hlen1⟩ := ih fs2 used2
        { acc with
          error_count := acc.error_count + 1
          errors := acc.errors ++ [msg] }
      refine ⟨new1, ?_, ?_⟩
      · simp only [organizeLoop, hstep]
        rw [hnew1, hsame]
      · simp only [organizeLoop, hstep]
        simp only at hlen1
        omega

/-- Counterexample to claim C5 as stated: a three-file copy batch in which the
suffixed variant of the duplicated `name.mp3` coincides with the first file's
original `name_1.mp3` reports three successes but creates only two
destination files (the third copy silently overwrites the first): the file
count grows by 2, not by `success_count = 3`. -/
theorem organize_copy_counterexample :
    (organize_files ⟨["src/name_1.mp3", "src/name.mp3", "src2/name.mp3"], [], [], []⟩
        [⟨"src/name_1.mp3", "name_1.mp3", none, none, none, none, none, none, none, none⟩,
         ⟨"src/name.mp3", "name.mp3", none, none, none, none, none, none, none, none⟩,
         ⟨"src2/name.mp3", "name.mp3", none, none, none, none, none, none, none, none⟩]
        "out" "genre" "copy").toOption.map
        (fun p => (p.1.success_count, p.1.error_count, p.2.files.length)) =
      some (3, 0, 5) ∧
    ¬ (5 = 3 + 3) := by
  constructor
  · decide
  · decide

/-- Amended claim C5: a `copy` batch leaves every source file present, and
creates at most one new destination file per success — exactly one except
when a resolved destination coincides with an existing path (the documented
suffix-collision corner, where a later copy overwrites an earlier one), so
the file count can grow by strictly less than `success_count`. -/
theorem organize_copy_preserves_sources (fs : FS) (files : List AudioMetadata)
    (output_folder organize_by : String) (r : OrganizeResult) (fs2 : FS)
    (h : organize_files fs files output_folder organize_by "copy" = .ok (r, fs2)) :
    (∀ p ∈ fs.files, p ∈ fs2.files) ∧
    (∃ new : List String, fs2.files = new ++ fs.files ∧ new.length ≤ r.success_count) := by
  unfold organize_files at h
  cases hroot : fs.create_dir_all output_folder with
  | error e =>
    rw [hroot] at h
    exact Except.noConfusion h
  | ok fsRoot =>
    rw [hroot] at h
    have h2 := Except.ok.inj h
    have hRootFiles := create_dir_all_files hroot
    obtain ⟨new, hnew, hlen⟩ :=
      organizeLoop_copy_growth output_folder organize_by files fsRoot [] ⟨0, 0, 0, []⟩
    rw [h2] at hnew hlen
    simp only at hnew hlen
    rw [hRootFiles] at hnew
    refine ⟨?_, new, hnew, by omega⟩
    intro p hp
    rw [hnew]
    exact List.mem_append_right _ hp

/-- Witness for the amended C5: the counterexample batch still preserves all
three sources and creates at most `success_count` new files. -/
theorem organize_copy_preserves_sources_witness :
    ∃ r fs2,
      organize_files ⟨["src/name_1.mp3", "src/name.mp3", "src2/name.mp3"], [], [], []⟩
          [⟨"src/name_1.mp3", "name_1.mp3", none, none, none, none, none, none, none, none⟩,
           ⟨"src/name.mp3", "name.mp3", none, none, none, none, none, none, none, none⟩,
           ⟨"src2/name.mp3", "name.mp3", none, none, none, none, none, none, none, none⟩]
          "out" "genre" "copy" = .ok (r, fs2) ∧
        "src/name_1.mp3" ∈ fs2.files ∧
        (∃ new : List String, fs2.files = new ++ ["src/name_1.mp3", "src/name.mp3",
          "src2/name.mp3"] ∧ new.length ≤ r.success_count) := by
  obtain ⟨r, fs2, hrun⟩ :
      ∃ r fs2, organize_files ⟨["src/name_1.mp3", "src/name.mp3", "src2/name.mp3"], [], [], []⟩
        [⟨"src/name_1.mp3", "name_1.mp3", none, none, none, none, none, none, none, none⟩,
         ⟨"src/name.mp3", "name.mp3", none, none, none, none, none, none, none, none⟩,
         ⟨"src2/name.mp3", "name.mp3", none, none, none, none, none, none, none, none⟩]
        "out" "genre" "copy" = .ok (r, fs2) := ⟨_, _, rfl⟩
  obtain ⟨hpres, hgrow⟩ := organize_copy_preserves_sources _ _ _ _ r fs2 hrun
  exact ⟨r, fs2, hrun, hpres "src/name_1.mp3" (by simp), hgrow⟩

theorem entriesFor_cons (g : (String × String) × List SourceDuplicateFile)
    (gs : List ((String × String) × List SourceDuplicateFile)) (key : String × String) :
    entriesFor (g :: gs) key = if g.1 = key then g.2 else entriesFor gs key := by
  unfold entriesFor
  by_cases h : g.1 = key
  · rw [List.find?_cons_of_pos _ (by simpa using h), if_pos h]
    rfl
  · rw [List.find?_cons_of_neg _ (by simpa using h), if_neg h]

theorem entriesFor_addToGroups
    (gs : List ((String × String) × List SourceDuplicateFile))
    (key key2 : String × String) (e : SourceDuplicateFile) :
    entriesFor (addToGroups gs key e) key2 =
      if key2 = key then entriesFor gs key2 ++ [e] else entriesFor gs key2 := by
  induction gs with
  | nil =>
    by_cases h : key2 = key
    · subst h
      rw [if_pos rfl]
      rw [show addToGroups [] key2 e = [(key2, [e])] from rfl]
      rw [entriesFor_cons]
      simp [entriesFor]
    · rw [if_neg h]
      rw [show addToGroups [] key e = [(key, [e])] from rfl]
      rw [entriesFor_cons, if_neg (fun hk => h hk.symm)]
  | cons g gs ih =>
    rw [show addToGroups (g :: gs) key e =
        (if g.1 = key then (g.1, g.2 ++ [e]) :: gs else g :: addToGroups gs key e) from rfl]
    by_cases hg : g.1 = key
    · rw [if_pos hg]
      rw [entriesFor_cons, entriesFor_cons]
      by_cases h2 : key2 = key
      · subst h2
        rw [if_pos hg, if_pos hg, if_pos rfl]
      · have hne : g.1 ≠ key2 := by rw [hg]; exact fun hk => h2 hk.symm
        rw [if_neg hne, if_neg hne, if_neg h2]
    · rw [if_neg hg]
      rw [entriesFor_cons, entriesFor_cons]
      by_cases h2 : g.1 = key2
      · have hne : ¬ key2 = key := by
          intro hk
          exact hg (by rw [h2, hk])
        rw [if_pos h2, if_pos h2, if_neg hne]
      · rw [if_neg h2, if_neg h2, ih]

theorem entriesFor_foldl (organize_by : String) :
    ∀ (files : List AudioMetadata)
      (gs : List ((String × String) × List SourceDuplicateFile)) (key : String × String),
      entriesFor
          (files.foldl
            (fun gs file => addToGroups gs (fileKey organize_by file) (fileEntry file)) gs)
          key =
        entriesFor gs key ++
          (files.filter (fun f => fileKey organize_by f = key)).map fileEntry := by
  intro files
  induction files with
  | nil => intro gs key; simp
  | cons f rest ih =>
    intro gs key
    rw [List.foldl_cons, ih, entriesFor_addToGroups]
    by_cases h : key = fileKey organize_by f
    · rw [if_pos h, List.filter_cons, if_pos (by simp [h.symm])]
      simp
    · rw [if_neg h, List.filter_cons,
        if_neg (by simpa using fun hk => h hk.symm)]

theorem addToGroups_keys
    (gs : List ((String × String) × List SourceDuplicateFile))
    (key : String × String) (e : SourceDuplicateFile) :
    (addToGroups gs key e).map Prod.fst =
      if key ∈ gs.map Prod.fst then gs.map Prod.fst
      else gs.map Prod.fst ++ [key] := by
  induction gs with
  | nil => simp [addToGroups]
  | cons g gs ih =>
    rw [show addToGroups (g :: gs) key e =
        (if g.1 = key then (g.1, g.2 ++ [e]) :: gs else g :: addToGroups gs key e) from rfl]
    by_cases hg : g.1 = key
    · rw [if_pos hg]
      have hmem : key ∈ (g :: gs).map Prod.fst := by simp [← hg]
      rw [if_pos hmem]
      simp
    · rw [if_neg hg]
      by_cases hmem : key ∈ gs.map Prod.fst
      · have : key ∈ (g :: gs).map Prod.fst := by simp [hmem]
        rw [if_pos this]
        simp [ih, hmem]
      · have : key ∉ (g :: gs).map Prod.fst := by
          simp only [List.map_cons, List.mem_cons]
          rintro (hk | hk)
          · exact hg hk.symm
          · exact hmem hk
        rw [if_neg this]
        simp [ih, hmem]

theorem addToGroups_keys_nodup
    {gs : List ((String × String) × List SourceDuplicateFile)}
    {key : String × String} {e : SourceDuplicateFile}
    (h : (gs.map Prod.fst).Nodup) :
    ((addToGroups gs key e).map Prod.fst).Nodup := by
  rw [addToGroups_keys]
  by_cases hmem : key ∈ gs.map Prod.fst
  · rw [if_pos hmem]
    exact h
  · rw [if_neg hmem]
    simp [List.nodup_append, h, hmem]

theorem foldl_keys_nodup (organize_by : String) :
    ∀ (files : List AudioMetadata)
      (gs : List ((String × String) × List SourceDuplicateFile)),
      (gs.map Prod.fst).Nodup →
      ((files.foldl
          (fun gs file => addToGroups gs (fileKey organize_by file) (fileEntry file))
          gs).map Prod.fst).Nodup := by
  intro files
  induction files with
  | nil => intro gs h; exact h
  | cons f rest ih =>
    intro gs h
    rw [List.foldl_cons]
    exact ih _ (addToGroups_keys_nodup h)

theorem find?_of_mem_keys_nodup :
    ∀ (gs : List ((String × String) × List SourceDuplicateFile))
      (grp : (String × String) × List SourceDuplicateFile),
      (gs.map Prod.fst).Nodup → grp ∈ gs →
      gs.find? (fun g => g.1 = grp.1) = some grp := by
  intro gs
  induction gs with
  | nil => intro grp h hmem; simp at hmem
  | cons g gs ih =>
    intro grp h hmem
    rw [List.map_cons, List.nodup_cons] at h
    rcases List.mem_cons.mp hmem with rfl | hmem2
    · rw [List.find?_cons_of_pos _ (by simp)]
    · have hne : g.1 ≠ grp.1 := by
        intro he
        exact h.1 (he ▸ List.mem_map_of_mem Prod.fst hmem2)
      rw [List.find?_cons_of_neg _ (by simpa using hne)]
      exact ih grp h.2 hmem2

theorem entriesFor_of_mem
    {gs : List ((String × String) × List SourceDuplicateFile)}
    {grp : (String × String) × List SourceDuplicateFile}
    (h : (gs.map Prod.fst).Nodup) (hmem : grp ∈ gs) :
    entriesFor gs grp.1 = grp.2 := by
  unfold entriesFor
  rw [find?_of_mem_keys_nodup gs grp h hmem]
  rfl

theorem mem_of_entriesFor_ne_nil
    {gs : List ((String × String) × List SourceDuplicateFile)}
    {key : String × String} (h : entriesFor gs key ≠ []) :
    ∃ grp ∈ gs, grp.1 = key ∧ grp.2 = entriesFor gs key := by
  unfold entriesFor at h ⊢
  cases hf : gs.find? (fun g => g.1 = key) with
  | none => rw [hf] at h; simp at h
  | some grp =>
    have hpred := List.find?_some hf
    simp at hpred
    exact ⟨grp, List.mem_of_find?_eq_some hf, hpred, rfl⟩

theorem filter_length_eq_count_map {α β : Type} [DecidableEq β] (f : α → β) (k : β) :
    ∀ l : List α, (l.filter (fun x => f x = k)).length = (l.map f).count k := by
  intro l
  induction l with
  | nil => rfl
  | cons x xs ih =>
    rw [List.filter_cons, List.map_cons, List.count_cons]
    by_cases h : f x = k
    · rw [if_pos (by simpa using h)]
      simp [h, ih]
    · rw [if_neg (by simpa using h)]
      simp [h, ih]

theorem addToGroups_members
    (gs : List ((String × String) × List SourceDuplicateFile))
    (key : String × String) (file : AudioMetadata)
    (h : ∀ g ∈ gs, ∀ m ∈ g.2, m.folder = parent_folder_name m.path) :
    ∀ g ∈ addToGroups gs key (fileEntry file), ∀ m ∈ g.2,
      m.folder = parent_folder_name m.path := by
  induction gs with
  | nil =>
    intro g hg m hm
    rw [show addToGroups [] key (fileEntry file) = [(key, [fileEntry file])] from rfl] at hg
    simp at hg
    subst hg
    simp at hm
    subst hm
    rfl
  | cons g0 gs ih =>
    intro g hg m hm
    rw [show addToGroups (g0 :: gs) key (fileEntry file) =
        (if g0.1 = key then (g0.1, g0.2 ++ [fileEntry file]) :: gs
         else g0 :: addToGroups gs key (fileEntry file)) from rfl] at hg
    by_cases h0 : g0.1 = key
    · rw [if_pos h0] at hg
      rcases List.mem_cons.mp hg with rfl | hg2
      · rcases List.mem_append.mp hm with hm1 | hm2
        · exact h g0 (by simp) m hm1
        · simp at hm2
          subst hm2
          rfl
      · exact h g (by simp [hg2]) m hm
    · rw [if_neg h0] at hg
      rcases List.mem_cons.mp hg with rfl | hg2
      · exact h g (by simp) m hm
      · exact ih (fun g2 hg2b m2 hm2 => h g2 (by simp [hg2b]) m2 hm2) g hg2 m hm

theorem foldl_members (organize_by : String) :
    ∀ (files : List AudioMetadata)
      (gs : List ((String × String) × List SourceDuplicateFile)),
      (∀ g ∈ gs, ∀ m ∈ g.2, m.folder = parent_folder_name m.path) →
      ∀ g ∈ files.foldl
          (fun gs file => addToGroups gs (fileKey organize_by file) (fileEntry file)) gs,
        ∀ m ∈ g.2, m.folder = parent_folder_name m.path := by
  intro files
  induction files with
  | nil => intro gs h; exact h
  | cons f rest ih =>
    intro gs h
    rw [List.foldl_cons]
    exact ih _ (addToGroups_members gs (fileKey organize_by f) f h)

/-- Claim C9: `find_source_duplicates` reports a group exactly when two or
more inputs share the same `(filename, sanitized category)` pair, each member
is annotated with its immediate parent folder name, and a batch whose pairs
are all distinct yields the empty list.  The embedding takes no filesystem
argument, mirroring the source's absence of existence checks. -/
theorem find_source_duplicates_spec (files : List AudioMetadata)
    (organize_by fn cat : String) :
    ((∃ g ∈ find_source_duplicates files organize_by,
        g.filename = fn ∧ g.category = cat) ↔
      2 ≤ (files.filter (fun f => f.filename = fn ∧
        sanitize_folder_name (get_file_category f organize_by) = cat)).length) ∧
    (∀ g ∈ find_source_duplicates files organize_by, ∀ m ∈ g.files,
      m.folder = parent_folder_name m.path) ∧
    ((files.map (fileKey organize_by)).Nodup →
      find_source_duplicates files organize_by = []) := by
  have hfilter : files.filter (fun f => decide (f.filename = fn ∧
      sanitize_folder_name (get_file_category f organize_by) = cat))
      = files.filter (fun f => fileKey organize_by f = (fn, cat)) := by
    apply List.filter_congr
    intro f _
    simp [fileKey, Prod.ext_iff]
  have hres : find_source_duplicates files organize_by =
      ((files.foldl
          (fun gs file => addToGroups gs (fileKey organize_by file) (fileEntry file))
          []).filter (fun g => 1 < g.2.length)).map
        (fun g => { filename := g.1.1, category := g.1.2, files := g.2 }) := rfl
  have hnodup : ((files.foldl
      (fun gs file => addToGroups gs (fileKey organize_by file) (fileEntry file))
      []).map Prod.fst).Nodup := foldl_keys_nodup organize_by files [] (by simp)
  have hentries : ∀ key, entriesFor
      (files.foldl
        (fun gs file => addToGroups gs (fileKey organize_by file) (fileEntry file)) [])
      key = (files.filter (fun f => fileKey organize_by f = key)).map fileEntry := by
    intro key
    rw [entriesFor_foldl organize_by files [] key]
    simp [entriesFor]
  refine ⟨⟨?_, ?_⟩, ?_, ?_⟩
  · rintro ⟨g, hg, hfn, hcat⟩
    rw [hres] at hg
    obtain ⟨grp, hgrpmem, hmk⟩ := List.mem_map.mp hg
    obtain ⟨hgg, hlenb⟩ := List.mem_filter.mp hgrpmem
    have hlen2 : 1 < grp.2.length := by simpa using hlenb
    subst hmk
    simp only at hfn hcat
    have hkey : grp.1 = (fn, cat) := Prod.ext_iff.mpr ⟨hfn, hcat⟩
    have hv := entriesFor_of_mem hnodup hgg
    rw [hkey, hentries (fn, cat)] at hv
    rw [hfilter]
    have hlen3 : (files.filter (fun f => fileKey organize_by f = (fn, cat))).length
        = grp.2.length := by
      rw [← hv]
      simp
    omega
  · intro h2
    rw [hfilter] at h2
    have hne : entriesFor
        (files.foldl
          (fun gs file => addToGroups gs (fileKey organize_by file) (fileEntry file)) [])
        (fn, cat) ≠ [] := by
      intro hnil
      rw [hentries] at hnil
      have hl := congrArg List.length hnil
      rw [List.length_map] at hl
      simp only [List.length_nil] at hl
      omega
    obtain ⟨grp, hmem, hkey, hval⟩ := mem_of_entriesFor_ne_nil hne
    have hlen : 1 < grp.2.length := by
      rw [hval, hentries]
      simp
      omega
    refine ⟨{ filename := grp.1.1, category := grp.1.2, files := grp.2 }, ?_, ?_, ?_⟩
    · rw [hres]
      exact List.mem_map_of_mem _ (List.mem_filter.mpr ⟨hmem, by simpa using hlen⟩)
    · simp [hkey]
    · simp [hkey]
  · intro g hg m hm
    rw [hres] at hg
    obtain ⟨grp, hgrpmem, hmk⟩ := List.mem_map.mp hg
    subst hmk
    exact foldl_members organize_by files [] (by simp) grp
      (List.mem_filter.mp hgrpmem).1 m hm
  · intro hnd
    rw [hres]
    by_contra hne
    obtain ⟨g, hg⟩ := List.exists_mem_of_ne_nil _ hne
    obtain ⟨grp, hgrpmem, hmk⟩ := List.mem_map.mp hg
    obtain ⟨hgg, hlenb⟩ := List.mem_filter.mp hgrpmem
    have hlen2 : 1 < grp.2.length := by simpa using hlenb
    have hv := entriesFor_of_mem hnodup hgg
    rw [hentries grp.1] at hv
    have hcount : (files.filter (fun f => fileKey organize_by f = grp.1)).length ≤ 1 := by
      rw [filter_length_eq_count_map]
      exact List.nodup_iff_count_le_one.mp hnd grp.1
    have hleneq : grp.2.length
        = (files.filter (fun f => fileKey organize_by f = grp.1)).length := by
      rw [← hv]
      simp
    omega

/-- Witness for C9: two files sharing `(name.mp3, SFX)` produce a reported
group, while a batch with distinct keys produces no group. -/
theorem find_source_duplicates_spec_witness :
    (∃ g ∈ find_source_duplicates
        [⟨"a/x/name.mp3", "name.mp3", none, none, none, none, none, none, none, none⟩,
         ⟨"b/y/name.mp3", "name.mp3", none, none, none, none, none, none, none, none⟩]
        "genre",
      g.filename = "name.mp3" ∧ g.category = "SFX") ∧
    find_source_duplicates
        [⟨"a/x/name.mp3", "name.mp3", none, none, none, none, none, none, none, none⟩,
         ⟨"b/y/other.mp3", "other.mp3", none, none, none, none, none, none, none, none⟩]
        "genre" = [] := by
  constructor
  · exact (find_source_duplicates_spec
      [⟨"a/x/name.mp3", "name.mp3", none, none, none, none, none, none, none, none⟩,
       ⟨"b/y/name.mp3", "name.mp3", none, none, none, none, none, none, none, none⟩]
      "genre" "name.mp3" "SFX").1.mpr (by decide)
  · exact (find_source_duplicates_spec
      [⟨"a/x/name.mp3", "name.mp3", none, none, none, none, none, none, none, none⟩,
       ⟨"b/y/other.mp3", "other.mp3", none, none, none, none, none, none, none, none⟩]
      "genre" "x" "y").2.2 (by decide)

end Smelter
